import Mathlib

/-!
Verification of the session engine of the snakes-and-ladders repository
(`src/App.jsx`, `src/config.js`, `src/tasks.js`).

The JavaScript source is shallowly embedded: JS numbers holding integers
(board positions, dice values, jump squares) become `Int`; the pseudo-random
generator state is a 32-bit word modelled as `Nat` with explicit `% 2^32`;
random outputs and selection weights become `Rat` (every float produced by
`mulberry32` is of the form `k / 2^32`, exact in both double precision and
`Rat`, and the weight arithmetic is only used here through its exact value).
React state updates become a pure state-transition function on a `GameState`
record holding the same fields.
-/

set_option maxRecDepth 4000

namespace SNL

attribute [local semireducible] Rat.mul Rat.inv Rat.add Rat.sub Rat.ofScientific

/-- A task record as loaded from the task sheet (`tasks.js`).  Only `id` and
`type` are inspected by the session engine; the remaining fields are carried
opaquely. -/
structure Task where
  id : String
  level : String
  focus : String
  prompt : String
  target : String
  type : String
  deriving DecidableEq, Repr

/-- `DEFAULT_TYPE_WEIGHTS` from `config.js`: a lookup table from task type to
base weight; absent keys yield `none` (JS `undefined`). -/
def DEFAULT_TYPE_WEIGHTS (ty : String) : Option ℚ :=
  if ty = "speaking" then some 3
  else if ty = "error_correction" then some 2
  else if ty = "translate_ca_en" then some 2
  else if ty = "translate_en_ca" then some 2
  else none

/-- The weight closure passed by `drawTask` to `weightedPick` (App.jsx):
`base = DEFAULT_TYPE_WEIGHTS[t.type] || 1`, `penalty = 1 / (1 + counts[t.type])`
where `counts` tallies the types of the four most recent history entries, and
`spice` is `1.4` when (roll 6, speaking) or (roll 1, error_correction).
The JS `|| 1` fallback maps both `undefined` and `0` to `1`. -/
def taskWeight (history : List Task) (rollValue : ℤ) (t : Task) : ℚ :=
  let counts := ((history.take 4).map Task.type).count t.type
  let base : ℚ :=
    match DEFAULT_TYPE_WEIGHTS t.type with
    | some w => if w = 0 then 1 else w
    | none => 1
  let penalty : ℚ := 1 / (1 + (counts : ℚ))
  let spice : ℚ :=
    if rollValue = 6 ∧ t.type = "speaking" then 1.4
    else if rollValue = 1 ∧ t.type = "error_correction" then 1.4
    else 1
  base * penalty * spice

/-- The subtraction walk of `weightedPick` (`tasks.js`): subtract each
(clamped) weight from the scaled roll and return the first element at which
the running value drops to `0` or below. -/
def pickWalk {α : Type} (f : α → ℚ) : ℚ → List α → Option α
  | _, [] => none
  | r, x :: xs =>
    let r' := r - max 0 (f x)
    if r' ≤ 0 then some x else pickWalk f r' xs

/-- `weightedPick(rng, items, weightFn)` from `tasks.js`, with the single
`rng()` value it consumes passed in as `rv`.  Weights are clamped at `0`;
if the total is `≤ 0` a uniform index is used; otherwise the subtraction walk
runs, with the last element as the end-of-loop fallback. -/
def weightedPick {α : Type} (rv : ℚ) (items : List α) (f : α → ℚ) : Option α :=
  let total := (items.map (fun x => max 0 (f x))).sum
  if total ≤ 0 then items[(⌊rv * items.length⌋).toNat]?
  else
    match pickWalk f (rv * total) items with
    | some x => some x
    | none => items.getLast?

/-- `drawTask(rollValue)` from `App.jsx`: candidates are the filtered tasks
whose id is absent from the ten most recent history entries, falling back to
the whole filtered pool when that set is empty; the pick is weighted by
`taskWeight`.  `rv` is the one `rng()` value `weightedPick` consumes. -/
def drawTask (rv : ℚ) (rollValue : ℤ) (filtered history : List Task) : Option Task :=
  let candidates := filtered.filter (fun t => ¬ (history.take 10).any (fun h => h.id = t.id))
  let pool := if candidates.length ≠ 0 then candidates else filtered
  weightedPick rv pool (taskWeight history rollValue)

/-- One advance of the `mulberry32` internal 32-bit word:
`a = (a + 0x6d2b79f5) | 0`. -/
def mulberryStep (a : ℕ) : ℕ := (a + 0x6d2b79f5) % 4294967296

/-- The integer pipeline of the `mulberry32` output section (`App.jsx`): each
JS coercion (`>>> k`, `| 0`, `Math.imul`, `>>> 0`) acts on the unsigned
32-bit residue, so the whole computation is tracked mod `2^32` on `Nat`.
The result is the word the final `>>> 0` produces. -/
def mulberryWord (a : ℕ) : ℕ :=
  let t1 : ℕ := ((a ^^^ (a / 2 ^ 15)) * (1 ||| a)) % 4294967296
  let m : ℕ := ((t1 ^^^ (t1 / 2 ^ 7)) * (61 ||| t1)) % 4294967296
  let t2 : ℕ := ((t1 + m) % 4294967296) ^^^ t1
  (t2 ^^^ (t2 / 2 ^ 14)) % 4294967296

/-- One output of `mulberry32`: the final word divided by `4294967296`.
This quotient is exact both here and in double precision. -/
def mulberryOut (a : ℕ) : ℚ :=
  (mulberryWord a : ℚ) / 4294967296

/-- The `n`-th value (0-based) of the stream `mulberry32(seed)`: the word is
advanced before each output. -/
def mulberrySeq (seed : ℕ) (n : ℕ) : ℚ :=
  mulberryOut (mulberryStep^[n + 1] (seed % 4294967296))

/-- `roll()` dice derivation from `App.jsx`: `1 + Math.floor(rng() * 6)`. -/
def diceRoll (r : ℚ) : ℤ := 1 + ⌊r * 6⌋

/-- `clamp(n, a, b)` from `App.jsx`: `Math.max(a, Math.min(b, n))`. -/
def clamp (n a b : ℤ) : ℤ := max a (min b n)

/-- `BASE_JUMPS_100` from `App.jsx`, as the entry list the code iterates over.
The JS object has integer-like keys, so `Object.entries` yields them in
ascending numeric order, which is how this list is ordered. -/
def BASE_JUMPS_100 : List (ℤ × ℤ) :=
  [(4, 14), (9, 31), (17, 7), (20, 38), (28, 84), (40, 59), (54, 34), (62, 19),
   (63, 81), (64, 60), (71, 91), (87, 24), (93, 73), (95, 75), (99, 78)]

/-- The binade exponent `⌊log2 q⌋` of a positive rational, written as an
explicit comparison chain valid on `[1/4, 128)`.  Every value `fl53` is
applied to in `buildJumps` lies in that interval: `boardSize / 100` is in
`[0.40, 0.99]` and each product `v * scale` with `v ∈ [4, 99]` is in
`[1.6, 99)`. -/
def floorPow2 (q : ℚ) : ℤ :=
  if 64 ≤ q then 6
  else if 32 ≤ q then 5
  else if 16 ≤ q then 4
  else if 8 ≤ q then 3
  else if 4 ≤ q then 2
  else if 2 ≤ q then 1
  else if 1 ≤ q then 0
  else if 1 / 2 ≤ q then -1
  else -2

/-- Round a nonnegative rational to the nearest integer, ties to even: the
rounding IEEE 754 applies to the scaled 53-bit significand. -/
def rne (x : ℚ) : ℤ :=
  let f := ⌊x⌋
  let r := x - (f : ℚ)
  if r < 1 / 2 then f
  else if 1 / 2 < r then f + 1
  else if f % 2 = 0 then f else f + 1

/-- The binary64 (double-precision) value nearest to a positive rational in
`[1/4, 128)`: scale into `[2^52, 2^53)`, round the significand to nearest
with ties to even, and scale back.  Exponents in this range are normal and
far from overflow, so this is exactly IEEE 754 correct rounding, which JS
applies after every arithmetic operation. -/
def fl53 (q : ℚ) : ℚ :=
  let k := (52 - floorPow2 q).toNat
  (rne (q * 2 ^ k) : ℚ) / 2 ^ k

/-- The double `scale = boardSize / 100` computed by `buildJumps`: the
operands are exact in binary64, so the result is the correctly rounded
quotient. -/
def jsScale (bs : ℤ) : ℚ := fl53 ((bs : ℚ) / 100)

/-- `Math.round(v * scale)` from `buildJumps`, modelled operation by
operation: `v` is exact in binary64, `v * scale` is one correctly rounded
multiplication (`fl53`), and ECMAScript `Math.round` returns the integer
nearest to the exact value of that double, ties toward `+∞`, i.e.
`⌊x + 1/2⌋` of the exact rational value.  (Exact half-up rounding of
`v * bs / 100` would be wrong: at `v = 75`, `bs = 82` the double product is
`61.5 - 2^-47`, so JS rounds to 61 where exact arithmetic would give 62.) -/
def roundScaled (v bs : ℤ) : ℤ := ⌊fl53 ((v : ℚ) * jsScale bs) + 1 / 2⌋

/-- The per-pair scaling step of `buildJumps` (`App.jsx`): scale both squares,
clamp the start, push the end at least `minDelta` away in the pair's original
direction, clamp, and divert an end landing on the final square. -/
def scaledPair (bs : ℤ) (p : ℤ × ℤ) : ℤ × ℤ :=
  let s := clamp (roundScaled p.1 bs) 2 (bs - 2)
  let minDelta := max 3 (roundScaled 6 bs)
  let e1 :=
    if p.2 > p.1 then clamp (max (roundScaled p.2 bs) (s + minDelta)) 2 (bs - 1)
    else clamp (min (roundScaled p.2 bs) (s - minDelta)) 2 (bs - 1)
  let e := if e1 = bs then bs - 1 else e1
  (s, e)

/-- The `add(s, e)` closure of `buildJumps`: reject out-of-range squares,
self-loops and already-used starts (`usedStarts` is the set of first
components of the accumulator), else append.  `Number.isFinite` is always
true in the integer model. -/
def addJump (bs : ℤ) (out : List (ℤ × ℤ)) (se : ℤ × ℤ) : List (ℤ × ℤ) :=
  if se.1 ≤ 1 ∨ se.1 ≥ bs ∨ se.2 ≤ 1 ∨ se.2 ≥ bs ∨ se.2 = se.1 ∨
      (out.map Prod.fst).contains se.1 then out
  else out ++ [se]

/-- `buildJumps(boardSize)` from `App.jsx`: the canonical table verbatim at
size 100, otherwise each canonical pair scaled and filtered in table order. -/
def buildJumps (bs : ℤ) : List (ℤ × ℤ) :=
  if bs = 100 then BASE_JUMPS_100
  else BASE_JUMPS_100.foldl (fun out p => addJump bs out (scaledPair bs p)) []

/-- The pending roll `{ roll, taskId }` set by `rollAndDraw`. -/
structure Pending where
  roll : ℤ
  taskId : String
  deriving DecidableEq, Repr

/-- A player `{ name, pos }`. -/
structure Player where
  name : String
  pos : ℤ
  deriving DecidableEq, Repr

/-- The React session state of `App.jsx` relevant to the session engine. -/
structure GameState where
  players : List Player
  turn : ℕ
  pending : Option Pending
  history : List Task
  boardSize : ℤ
  dice : ℤ
  showAnswer : Bool
  animating : Bool
  numPlayers : ℤ
  deriving DecidableEq, Repr

/-- The `setPlayers` updater used during movement: copy the list and set the
position of the player at the given index when that index exists
(`if (next[turn]) next[turn].pos = ...`). -/
def setPlayerPos : List Player → ℕ → ℤ → List Player
  | [], _, _ => []
  | p :: ps, 0, v => { p with pos := v } :: ps
  | p :: ps, i + 1, v => p :: setPlayerPos ps i v

/-- The successful-move branch of `applyMove` (`App.jsx`): step to the target
(unchanged on overshoot of the final square), then apply the jump lookup at
the target when it yields a truthy value different from the target.  Only the
settled positions are modelled; the intermediate animation frames are not
part of the final state. -/
def movePlayers (jumps : List (ℤ × ℤ)) (s : GameState) (pend : Pending) : List Player :=
  let startPos := (s.players[s.turn]?).elim 0 Player.pos
  let target0 := startPos + pend.roll
  let target := if target0 > s.boardSize then startPos else target0
  let ps1 := if target ≠ startPos then setPlayerPos s.players s.turn target else s.players
  match List.lookup target jumps with
  | some j => if j ≠ 0 ∧ j ≠ target then setPlayerPos ps1 s.turn j else ps1
  | none => ps1

/-- `applyMove(success)` from `App.jsx`: a no-op without a pending roll or a
current task (`history[0]`) or while animating; otherwise move on success,
advance the turn mod the player count, and clear the pending roll. -/
def applyMove (success : Bool) (jumps : List (ℤ × ℤ)) (s : GameState) : GameState :=
  match s.pending, s.history with
  | some pend, _ :: _ =>
    if s.animating then s
    else
      { s with
        players := if success then movePlayers jumps s pend else s.players,
        turn := if s.players.length ≠ 0 then (s.turn + 1) % s.players.length else 0,
        pending := none }
  | _, _ => s

/-- `rollAndDraw()` from `App.jsx`: guarded by the animation flag, a
non-empty filtered pool and a non-empty player list; rolls the dice with
`rng 0`, draws a task with `rng 1` (the generator is consumed in exactly that
order), prepends the picked task to the history capped at 50, and sets the
pending roll.  The `none` branch mirrors the JS partiality of an
out-of-range pick and is unreachable for generator values in `[0, 1)`. -/
def rollAndDraw (rng : ℕ → ℚ) (filtered : List Task) (s : GameState) : GameState :=
  if s.animating then s
  else if filtered.isEmpty then s
  else if s.players.isEmpty then s
  else
    let value := diceRoll (rng 0)
    match drawTask (rng 1) value filtered s.history with
    | some picked =>
      { s with
        dice := value,
        showAnswer := false,
        history := (picked :: s.history).take 50,
        pending := some ⟨value, picked.id⟩ }
    | none => s

/-- The position/name reset mapped over the player list by `resetSession` and
`setBoardSizeAndReset`: `{...p, pos: 0, name: p.name || P(i+1)}`, with the
index threaded explicitly. -/
def resetPositions : ℕ → List Player → List Player
  | _, [] => []
  | i, p :: ps =>
    { p with pos := 0, name := if p.name = "" then "P" ++ toString (i + 1) else p.name }
      :: resetPositions (i + 1) ps

/-- `setBoardSizeAndReset(n)` from `App.jsx`: clamp the size into `[40, 100]`,
clear the pending roll, reset the turn, zero all positions, clear the history
and hide the answer. -/
def setBoardSizeAndReset (n : ℤ) (s : GameState) : GameState :=
  { s with
    boardSize := clamp n 40 100,
    pending := none,
    turn := 0,
    players := resetPositions 0 s.players,
    history := [],
    showAnswer := false }

/-- The roster rebuild of `setPlayerCount`: for each index below the clamped
count, keep the previous player's name (defaulting empty names) and the
previous player's position (`prev[i]?.pos || 0`), or start a fresh player at
position 0. -/
def rebuildPlayers (prev : List Player) (k : ℕ) : List Player :=
  (List.range k).map fun i =>
    { name :=
        match prev[i]? with
        | some p => if p.name = "" then "P" ++ toString (i + 1) else p.name
        | none => "P" ++ toString (i + 1),
      pos := (prev[i]?).elim 0 Player.pos }

/-- `setPlayerCount(n)` from `App.jsx`: clamp the count into `[1, 6]`, reset
the turn and pending roll, and rebuild the roster keeping existing players'
names and positions.  The history and positions of retained players are not
touched. -/
def setPlayerCount (n : ℤ) (s : GameState) : GameState :=
  let clamped := max 1 (min 6 n)
  { s with
    numPlayers := clamped,
    turn := 0,
    pending := none,
    players := rebuildPlayers s.players clamped.toNat }

/-- The invariants claimed for every jump graph: no self-loop, all squares in
`[2, boardSize - 1]`, no end on the final square, and pairwise distinct
starts. -/
def jumpInvariants (bs : ℤ) : Prop :=
  (∀ p ∈ buildJumps bs,
    p.1 ≠ p.2 ∧ 2 ≤ p.1 ∧ p.1 ≤ bs - 1 ∧ 2 ≤ p.2 ∧ p.2 ≤ bs - 1 ∧ p.2 ≠ bs) ∧
  ((buildJumps bs).map Prod.fst).Nodup

instance (bs : ℤ) : Decidable (jumpInvariants bs) := by
  unfold jumpInvariants; infer_instance

set_option maxHeartbeats 4000000 in
lemma jumpInvariants_all : ∀ n ∈ List.range 61, jumpInvariants (40 + (n : ℤ)) := by
  decide

/-- Direction and minimum-distance preservation for scaled boards: every
entry of the scaled graph arises from a canonical pair via `scaledPair`, and
whenever a canonical pair's scaled image is retained, it keeps the canonical
direction and spans at least `minDelta = max 3 (round (6 * bs / 100))`. -/
def jumpScalingOK (bs : ℤ) : Prop :=
  (∀ p ∈ BASE_JUMPS_100, scaledPair bs p ∈ buildJumps bs →
    ((p.1 < p.2 → (scaledPair bs p).1 < (scaledPair bs p).2 ∧
        max 3 (roundScaled 6 bs) ≤ (scaledPair bs p).2 - (scaledPair bs p).1) ∧
     (p.2 < p.1 → (scaledPair bs p).2 < (scaledPair bs p).1 ∧
        max 3 (roundScaled 6 bs) ≤ (scaledPair bs p).1 - (scaledPair bs p).2))) ∧
  (∀ se ∈ buildJumps bs, ∃ p ∈ BASE_JUMPS_100, scaledPair bs p = se)

instance (bs : ℤ) : Decidable (jumpScalingOK bs) := by
  unfold jumpScalingOK; infer_instance

set_option maxHeartbeats 4000000 in
lemma jumpScalingOK_all : ∀ n ∈ List.range 60, jumpScalingOK (40 + (n : ℤ)) := by
  decide

lemma pickWalk_mem {α : Type} (f : α → ℚ) :
    ∀ (r : ℚ) (l : List α) (x : α), pickWalk f r l = some x → x ∈ l
  | r, [], x => by simp [pickWalk]
  | r, a :: l, x => by
    dsimp only [pickWalk]
    split_ifs with h
    · intro hx
      cases hx
      exact List.mem_cons_self a l
    · intro hx
      exact List.mem_cons_of_mem _ (pickWalk_mem f _ l x hx)

lemma weightedPick_mem {α : Type} (rv : ℚ) (items : List α) (f : α → ℚ)
    (hne : items ≠ []) (h0 : 0 ≤ rv) (h1 : rv < 1) :
    ∃ x, weightedPick rv items f = some x ∧ x ∈ items := by
  unfold weightedPick
  have hlen : 0 < items.length := List.length_pos.mpr hne
  by_cases ht : (items.map (fun x => max 0 (f x))).sum ≤ 0
  · rw [if_pos ht]
    have hnn : (0 : ℚ) ≤ rv * items.length := mul_nonneg h0 (by positivity)
    have hlt : rv * (items.length : ℚ) < items.length := by
      have := mul_lt_mul_of_pos_right h1 (by exact_mod_cast hlen : (0 : ℚ) < items.length)
      simpa using this
    have hfl0 : (0 : ℤ) ≤ ⌊rv * (items.length : ℚ)⌋ := Int.floor_nonneg.mpr hnn
    have hflt : ⌊rv * (items.length : ℚ)⌋ < (items.length : ℤ) := by
      rw [Int.floor_lt]
      exact_mod_cast hlt
    have hidx : (⌊rv * (items.length : ℚ)⌋).toNat < items.length := by omega
    exact ⟨_, List.getElem?_eq_getElem hidx, List.getElem_mem hidx⟩
  · rw [if_neg ht]
    cases hpw : pickWalk f (rv * (items.map (fun x => max 0 (f x))).sum) items with
    | some x => exact ⟨x, rfl, pickWalk_mem f _ items x hpw⟩
    | none =>
      refine ⟨items.getLast hne, ?_, List.getLast_mem hne⟩
      rw [List.getLast?_eq_getLast items hne]

lemma drawTask_mem (rv : ℚ) (rollValue : ℤ) (filtered history : List Task)
    (hne : filtered ≠ []) (h0 : 0 ≤ rv) (h1 : rv < 1) :
    ∃ t, drawTask rv rollValue filtered history = some t ∧
      t ∈ (let candidates :=
            filtered.filter (fun t => ¬ (history.take 10).any (fun h => h.id = t.id))
           if candidates.length ≠ 0 then candidates else filtered) ∧
      t ∈ filtered := by
  unfold drawTask
  by_cases hc :
      (filtered.filter (fun t => ¬ (history.take 10).any (fun h => h.id = t.id))).length ≠ 0
  · have hcne : filtered.filter (fun t => ¬ (history.take 10).any (fun h => h.id = t.id)) ≠ [] := by
      intro habs
      rw [habs] at hc
      exact hc rfl
    obtain ⟨t, hpick, hmem⟩ := weightedPick_mem rv _ (taskWeight history rollValue) hcne h0 h1
    refine ⟨t, ?_, ?_, List.mem_of_mem_filter hmem⟩
    · simp only [if_pos hc]
      exact hpick
    · simp only [if_pos hc]
      exact hmem
  · obtain ⟨t, hpick, hmem⟩ := weightedPick_mem rv _ (taskWeight history rollValue) hne h0 h1
    refine ⟨t, ?_, ?_, hmem⟩
    · simp only [if_neg hc]
      exact hpick
    · simp only [if_neg hc]
      exact hmem

lemma setPlayerPos_getElem? :
    ∀ (ps : List Player) (i : ℕ) (v : ℤ),
      (setPlayerPos ps i v)[i]? = (ps[i]?).map (fun p => { p with pos := v })
  | [], i, v => by cases i <;> simp [setPlayerPos]
  | p :: ps, 0, v => by simp [setPlayerPos]
  | p :: ps, i + 1, v => by
    simp [setPlayerPos, setPlayerPos_getElem? ps i v]

lemma resetPositions_map_pos :
    ∀ (i : ℕ) (ps : List Player),
      (resetPositions i ps).map Player.pos = List.replicate ps.length 0
  | _, [] => rfl
  | i, p :: ps => by
    simp [resetPositions, resetPositions_map_pos (i + 1) ps, List.replicate_succ]

lemma rebuildPlayers_getElem?_pos (prev : List Player) (k i : ℕ) :
    ((rebuildPlayers prev k)[i]?).map Player.pos =
      if i < k then some ((prev[i]?).elim 0 Player.pos) else none := by
  unfold rebuildPlayers
  by_cases h : i < k
  · rw [if_pos h]
    simp [List.getElem?_map, List.getElem?_range, h]
  · rw [if_neg h]
    rw [List.getElem?_eq_none (by simpa using le_of_not_lt h)]
    rfl

lemma mulberryWord_lt (a : ℕ) : mulberryWord a < 4294967296 := by
  unfold mulberryWord
  exact Nat.mod_lt _ (by norm_num)

lemma mulberryOut_nonneg (a : ℕ) : 0 ≤ mulberryOut a := by
  unfold mulberryOut
  exact div_nonneg (Nat.cast_nonneg _) (by norm_num)

lemma mulberryOut_lt_one (a : ℕ) : mulberryOut a < 1 := by
  unfold mulberryOut
  rw [div_lt_one (by norm_num)]
  exact_mod_cast mulberryWord_lt a

lemma diceRoll_bounds (r : ℚ) (h0 : 0 ≤ r) (h1 : r < 1) :
    1 ≤ diceRoll r ∧ diceRoll r ≤ 6 := by
  unfold diceRoll
  have hnn : (0 : ℤ) ≤ ⌊r * 6⌋ := Int.floor_nonneg.mpr (by positivity)
  have hlt : ⌊r * 6⌋ < 6 := by
    rw [Int.floor_lt]
    push_cast
    nlinarith
  omega

lemma applyMove_eq (success : Bool) (jumps : List (ℤ × ℤ)) (s : GameState)
    (pend : Pending) (hp : s.pending = some pend) (hh : s.history ≠ [])
    (ha : s.animating = false) :
    applyMove success jumps s =
      { s with
        players := if success then movePlayers jumps s pend else s.players,
        turn := if s.players.length ≠ 0 then (s.turn + 1) % s.players.length else 0,
        pending := none } := by
  obtain ⟨h0, tl, hcons⟩ := List.exists_cons_of_ne_nil hh
  obtain ⟨players, turn, pending, history, boardSize, dice, showAnswer, animating, numPlayers⟩ := s
  dsimp only at hp hcons ha ⊢
  subst hp hcons ha
  rfl

lemma movePlayers_no_jump (jumps : List (ℤ × ℤ)) (s : GameState) (pend : Pending)
    (pl : Player) (hpl : s.players[s.turn]? = some pl) (hr : 1 ≤ pend.roll) :
    (pl.pos + pend.roll > s.boardSize → List.lookup pl.pos jumps = none →
      movePlayers jumps s pend = s.players) ∧
    (pl.pos + pend.roll ≤ s.boardSize → List.lookup (pl.pos + pend.roll) jumps = none →
      movePlayers jumps s pend = setPlayerPos s.players s.turn (pl.pos + pend.roll)) := by
  constructor
  · intro hover hlook
    unfold movePlayers
    rw [hpl]
    simp only [Option.elim, if_pos hover, ne_self_iff_false, if_neg, ite_false, if_false]
    rw [hlook]
  · intro hland hlook
    have hnot : ¬ (pl.pos + pend.roll > s.boardSize) := not_lt.mpr hland
    have hne : pl.pos + pend.roll ≠ pl.pos := by omega
    unfold movePlayers
    rw [hpl]
    simp only [Option.elim, if_neg hnot, if_pos hne]
    rw [hlook]

lemma movePlayers_jump (jumps : List (ℤ × ℤ)) (s : GameState) (pend : Pending)
    (pl : Player) (d : ℤ) (hpl : s.players[s.turn]? = some pl) (hr : 1 ≤ pend.roll)
    (hland : pl.pos + pend.roll ≤ s.boardSize)
    (hlook : List.lookup (pl.pos + pend.roll) jumps = some d)
    (hd0 : d ≠ 0) (hdne : d ≠ pl.pos + pend.roll) :
    movePlayers jumps s pend =
      setPlayerPos (setPlayerPos s.players s.turn (pl.pos + pend.roll)) s.turn d := by
  have hnot : ¬ (pl.pos + pend.roll > s.boardSize) := not_lt.mpr hland
  have hne : pl.pos + pend.roll ≠ pl.pos := by omega
  unfold movePlayers
  rw [hpl]
  simp only [Option.elim, if_neg hnot, if_pos hne, hlook]
  rw [if_pos ⟨hd0, hdne⟩]

/-- A sample task record used for concrete evaluations. -/
def task1 : Task := ⟨"t1", "", "", "", "", "speaking"⟩

/-- C2 counterexample: the claim states that an overshooting move always
leaves the player in place, but `applyMove` applies the jump lookup to the
(unchanged) landing square even when the move is voided: a player resting on
square 95 of the canonical 100-board who rolls 6 overshoots, yet is relocated
along the snake 95 → 75. -/
theorem applyMove_overshoot_jump_counterexample :
    ((95 : ℤ) + 6 > 100) ∧
    (applyMove true (buildJumps 100)
        ⟨[⟨"P1", 95⟩], 0, some ⟨6, "t1"⟩, [task1], 100, 6, false, false, 1⟩).players
      = [⟨"P1", 75⟩] := by
  decide

/-- C2 (amended): with a pending roll, a current task and no animation in
flight, `applyMove(true)` implements the exact-landing rule: when
`p + r > boardSize` the mover stays at `p`, provided `p` itself is not a
jump start (the code re-applies the jump lookup at the void target); when
`p + r ≤ boardSize` and `p + r` is not a jump start the mover advances to
`p + r`. -/
theorem applyMove_exact_landing (s : GameState) (jumps : List (ℤ × ℤ))
    (pend : Pending) (pl : Player)
    (hp : s.pending = some pend) (hh : s.history ≠ []) (ha : s.animating = false)
    (hpl : s.players[s.turn]? = some pl) (hr : 1 ≤ pend.roll) :
    (pl.pos + pend.roll > s.boardSize → List.lookup pl.pos jumps = none →
      (applyMove true jumps s).players[s.turn]? = some pl) ∧
    (pl.pos + pend.roll ≤ s.boardSize → List.lookup (pl.pos + pend.roll) jumps = none →
      ((applyMove true jumps s).players[s.turn]?).map Player.pos
        = some (pl.pos + pend.roll)) := by
  rw [applyMove_eq true jumps s pend hp hh ha]
  dsimp only
  constructor
  · intro hover hlook
    rw [(movePlayers_no_jump jumps s pend pl hpl hr).1 hover hlook]
    exact hpl
  · intro hland hlook
    rw [(movePlayers_no_jump jumps s pend pl hpl hr).2 hland hlook]
    rw [if_pos rfl]
    rw [setPlayerPos_getElem?, hpl]
    rfl

theorem applyMove_exact_landing_witness :
    (((⟨[⟨"P1", 97⟩], 0, some ⟨5, "t1"⟩, [task1], 100, 5, false, false, 1⟩ :
        GameState).pending = some ⟨5, "t1"⟩) ∧
      ((⟨[⟨"P1", 97⟩], 0, some ⟨5, "t1"⟩, [task1], 100, 5, false, false, 1⟩ :
        GameState).history ≠ []) ∧
      ((95 : ℤ) + 5 ≤ 100) ∧
      (((97 : ℤ) + 5 > 100 → List.lookup (97 : ℤ) (buildJumps 100) = none →
        (applyMove true (buildJumps 100)
          ⟨[⟨"P1", 97⟩], 0, some ⟨5, "t1"⟩, [task1], 100, 5, false, false, 1⟩).players[0]?
          = some ⟨"P1", 97⟩))) ∧
    ((applyMove true (buildJumps 100)
        ⟨[⟨"P1", 97⟩], 0, some ⟨5, "t1"⟩, [task1], 100, 5, false, false, 1⟩).players.map
        Player.pos = [97]) ∧
    ((applyMove true (buildJumps 100)
        ⟨[⟨"P1", 95⟩], 0, some ⟨5, "t1"⟩, [task1], 100, 5, false, false, 1⟩).players.map
        Player.pos = [100]) :=
  ⟨⟨rfl, by decide, by decide,
    (applyMove_exact_landing
      ⟨[⟨"P1", 97⟩], 0, some ⟨5, "t1"⟩, [task1], 100, 5, false, false, 1⟩
      (buildJumps 100) ⟨5, "t1"⟩ ⟨"P1", 97⟩ rfl (by decide) rfl rfl (by decide)).1⟩,
    by decide, by decide⟩

/-- C3: when a successful move lands exactly on a start square of the jump
graph, the mover's settled position after `applyMove(true)` is the graph's
mapped destination, resolved exactly once: the conclusion is the destination
`d` itself with no hypothesis on `List.lookup d jumps`, so even a destination
that is itself a start square is not chased further within the call. -/
theorem applyMove_single_jump_resolution (s : GameState) (jumps : List (ℤ × ℤ))
    (pend : Pending) (pl : Player) (d : ℤ)
    (hp : s.pending = some pend) (hh : s.history ≠ []) (ha : s.animating = false)
    (hpl : s.players[s.turn]? = some pl) (hr : 1 ≤ pend.roll)
    (hland : pl.pos + pend.roll ≤ s.boardSize)
    (hlook : List.lookup (pl.pos + pend.roll) jumps = some d)
    (hd0 : d ≠ 0) (hdne : d ≠ pl.pos + pend.roll) :
    ((applyMove true jumps s).players[s.turn]?).map Player.pos = some d := by
  rw [applyMove_eq true jumps s pend hp hh ha]
  dsimp only
  rw [movePlayers_jump jumps s pend pl d hpl hr hland hlook hd0 hdne]
  rw [if_pos rfl]
  rw [setPlayerPos_getElem?, setPlayerPos_getElem?, hpl]
  rfl

theorem applyMove_single_jump_resolution_witness :
    (((⟨[⟨"P1", 1⟩], 0, some ⟨3, "t1"⟩, [task1], 100, 3, false, false, 1⟩ :
        GameState).pending = some ⟨3, "t1"⟩) ∧
      ((1 : ℤ) + 3 ≤ 100) ∧
      (List.lookup ((1 : ℤ) + 3) (buildJumps 100) = some 14)) ∧
    ((applyMove true (buildJumps 100)
        ⟨[⟨"P1", 1⟩], 0, some ⟨3, "t1"⟩, [task1], 100, 3, false, false, 1⟩).players[0]?).map
      Player.pos = some 14 :=
  ⟨⟨rfl, by decide, by decide⟩,
    applyMove_single_jump_resolution
      ⟨[⟨"P1", 1⟩], 0, some ⟨3, "t1"⟩, [task1], 100, 3, false, false, 1⟩
      (buildJumps 100) ⟨3, "t1"⟩ ⟨"P1", 1⟩ 14 rfl (by decide) rfl rfl (by decide)
      (by decide) (by decide) (by decide) (by decide)⟩

/-- C4 counterexample: `rollAndDraw` performs no winner check of its own
(the UI merely disables the button): called on a state whose player already
sits on the final square it still rolls, draws and sets a pending roll, so it
is not a no-op there. -/
theorem rollAndDraw_winner_counterexample :
    ((⟨[⟨"P1", 100⟩], 0, none, [], 100, 1, false, false, 1⟩ :
        GameState).players.any (fun p => p.pos = 100) = true) ∧
    (rollAndDraw (fun _ => 1 / 2) [task1]
        ⟨[⟨"P1", 100⟩], 0, none, [], 100, 1, false, false, 1⟩).pending
      = some ⟨4, "t1"⟩ ∧
    (rollAndDraw (fun _ => 1 / 2) [task1]
        ⟨[⟨"P1", 100⟩], 0, none, [], 100, 1, false, false, 1⟩).history
      = [task1] := by
  decide

/-- C4 (amended): `applyMove` is a no-op — the whole session state is
returned unchanged — when no pending roll exists, when no current task
exists, or while a move is animating; `rollAndDraw` is a no-op while
animating, with an empty filtered pool, or with no players.  `rollAndDraw`
itself does not check for a winner (see the counterexample): the winner
guard lives in the UI's disabled roll button. -/
theorem invalid_transition_noop (s : GameState) (success : Bool)
    (jumps : List (ℤ × ℤ)) (rng : ℕ → ℚ) (filtered : List Task) :
    (s.pending = none → applyMove success jumps s = s) ∧
    (s.history = [] → applyMove success jumps s = s) ∧
    (s.animating = true → applyMove success jumps s = s ∧ rollAndDraw rng filtered s = s) ∧
    (filtered = [] → rollAndDraw rng filtered s = s) ∧
    (s.players = [] → rollAndDraw rng filtered s = s) := by
  obtain ⟨players, turn, pending, history, boardSize, dice, showAnswer, animating, numPlayers⟩ := s
  refine ⟨?_, ?_, ?_, ?_, ?_⟩
  · intro h
    dsimp only at h
    subst h
    cases history <;> rfl
  · intro h
    dsimp only at h
    subst h
    cases pending <;> rfl
  · intro h
    dsimp only at h
    subst h
    constructor
    · cases pending <;> cases history <;> simp [applyMove]
    · simp [rollAndDraw]
  · intro h
    subst h
    cases animating <;> simp [rollAndDraw]
  · intro h
    dsimp only at h
    subst h
    cases animating <;> cases filtered <;> simp [rollAndDraw]

theorem invalid_transition_noop_witness :
    ((⟨[⟨"P1", 3⟩], 0, none, [task1], 100, 1, false, false, 1⟩ :
        GameState).pending = none) ∧
    (applyMove true (buildJumps 100)
        ⟨[⟨"P1", 3⟩], 0, none, [task1], 100, 1, false, false, 1⟩
      = ⟨[⟨"P1", 3⟩], 0, none, [task1], 100, 1, false, false, 1⟩) :=
  ⟨rfl,
    (invalid_transition_noop
      ⟨[⟨"P1", 3⟩], 0, none, [task1], 100, 1, false, false, 1⟩
      true (buildJumps 100) (fun _ => 1 / 2) [task1]).1 rfl⟩

/-- C5 counterexample: changing the player count is not a full session
reset: a retained player's nonzero position survives `setPlayerCount`, and
the draw history is not cleared. -/
theorem setPlayerCount_no_full_reset_counterexample :
    ((setPlayerCount 3
        ⟨[⟨"P1", 42⟩, ⟨"P2", 7⟩], 1, none, [task1], 100, 2, false, false, 2⟩).players.map
        Player.pos = [42, 7, 0]) ∧
    ((setPlayerCount 3
        ⟨[⟨"P1", 42⟩, ⟨"P2", 7⟩], 1, none, [task1], 100, 2, false, false, 2⟩).history
      = [task1]) := by
  decide

/-- C5 (amended): changing the board size performs a full reset — every
position is zeroed, the turn index and pending roll are reset and the
history is cleared — while changing the player count resets only the turn
index and pending roll and rebuilds the roster: indices below the clamped
count keep the previous player's position (new players start at 0) and the
history is left untouched. -/
theorem session_reset_semantics (n m : ℤ) (s : GameState) (i : ℕ) :
    ((setBoardSizeAndReset n s).players.map Player.pos
      = List.replicate s.players.length 0) ∧
    (setBoardSizeAndReset n s).turn = 0 ∧
    (setBoardSizeAndReset n s).pending = none ∧
    (setBoardSizeAndReset n s).history = [] ∧
    (setPlayerCount m s).turn = 0 ∧
    (setPlayerCount m s).pending = none ∧
    (setPlayerCount m s).history = s.history ∧
    (((setPlayerCount m s).players[i]?).map Player.pos
      = if i < (max 1 (min 6 m)).toNat then some ((s.players[i]?).elim 0 Player.pos)
        else none) := by
  refine ⟨resetPositions_map_pos 0 s.players, rfl, rfl, rfl, rfl, rfl, rfl, ?_⟩
  exact rebuildPlayers_getElem?_pos s.players (max 1 (min 6 m)).toNat i

/-- C6 counterexample: the history entry prepended by `rollAndDraw` is the
picked task record itself and carries no roll value: two draws whose dice
values differ (2 and 5) prepend identical history entries, so a history
entry does not record the roll that produced it. -/
theorem history_entry_no_rollValue_counterexample :
    ((rollAndDraw (fun _ => 1 / 4) [task1]
        ⟨[⟨"P1", 0⟩], 0, none, [], 100, 1, false, false, 1⟩).history
      = (rollAndDraw (fun _ => 3 / 4) [task1]
        ⟨[⟨"P1", 0⟩], 0, none, [], 100, 1, false, false, 1⟩).history) ∧
    (rollAndDraw (fun _ => 1 / 4) [task1]
        ⟨[⟨"P1", 0⟩], 0, none, [], 100, 1, false, false, 1⟩).dice = 2 ∧
    (rollAndDraw (fun _ => 3 / 4) [task1]
        ⟨[⟨"P1", 0⟩], 0, none, [], 100, 1, false, false, 1⟩).dice = 5 := by
  decide

/-- C6 (amended): each entry `rollAndDraw` prepends to the history is the
selected task record itself (the dice value is stored only in the pending
roll, not in the history entry), and the history is bounded at capacity 50
with the most recent entry first. -/
theorem rollAndDraw_history_bounded (rng : ℕ → ℚ) (filtered : List Task)
    (s : GameState) (t : Task)
    (ha : s.animating = false) (hf : filtered ≠ []) (hp : s.players ≠ [])
    (hd : drawTask (rng 1) (diceRoll (rng 0)) filtered s.history = some t) :
    (rollAndDraw rng filtered s).history = (t :: s.history).take 50 ∧
    (rollAndDraw rng filtered s).history.length ≤ 50 ∧
    (rollAndDraw rng filtered s).history.head? = some t ∧
    (rollAndDraw rng filtered s).pending = some ⟨diceRoll (rng 0), t.id⟩ := by
  have hfe : filtered.isEmpty = false := by
    cases filtered with
    | nil => exact absurd rfl hf
    | cons a l => rfl
  have hpe : s.players.isEmpty = false := by
    cases hps : s.players with
    | nil => exact absurd hps hp
    | cons a l => rfl
  have hred : rollAndDraw rng filtered s =
      { s with
        dice := diceRoll (rng 0),
        showAnswer := false,
        history := (t :: s.history).take 50,
        pending := some ⟨diceRoll (rng 0), t.id⟩ } := by
    unfold rollAndDraw
    simp only [ha, hfe, hpe, Bool.false_eq_true, if_false, hd]
  rw [hred]
  refine ⟨rfl, ?_, ?_, rfl⟩
  · rw [List.length_take]
    exact min_le_left _ _
  · rw [show (50 : ℕ) = 49 + 1 from rfl, List.take_succ_cons]
    rfl

theorem rollAndDraw_history_bounded_witness :
    (((⟨[⟨"P1", 0⟩], 0, none, [], 100, 1, false, false, 1⟩ :
        GameState).animating = false) ∧
      ([task1] ≠ ([] : List Task)) ∧
      (drawTask ((fun (_ : ℕ) => (1 / 4 : ℚ)) 1)
        (diceRoll ((fun (_ : ℕ) => (1 / 4 : ℚ)) 0)) [task1] [] = some task1)) ∧
    ((rollAndDraw (fun _ => 1 / 4) [task1]
        ⟨[⟨"P1", 0⟩], 0, none, [], 100, 1, false, false, 1⟩).history
      = (task1 :: ([] : List Task)).take 50) ∧
    ((rollAndDraw (fun _ => 1 / 4) [task1]
        ⟨[⟨"P1", 0⟩], 0, none, [], 100, 1, false, false, 1⟩).pending
      = some ⟨diceRoll ((fun (_ : ℕ) => (1 / 4 : ℚ)) 0), task1.id⟩) :=
  ⟨⟨rfl, by decide, by decide⟩,
    (rollAndDraw_history_bounded (fun _ => 1 / 4) [task1]
      ⟨[⟨"P1", 0⟩], 0, none, [], 100, 1, false, false, 1⟩ task1
      rfl (by decide) (by decide) (by decide)).1,
    (rollAndDraw_history_bounded (fun _ => 1 / 4) [task1]
      ⟨[⟨"P1", 0⟩], 0, none, [], 100, 1, false, false, 1⟩ task1
      rfl (by decide) (by decide) (by decide)).2.2.2⟩

/-- The selection-weight formula exactly as the specification words it, for
comparison with the source-derived `taskWeight`: a base weight table
(speaking 3, error_correction 2, translate_ca_en 2, translate_en_ca 2,
anything else 1), a repetition penalty `1 / (1 + typeCounts)` over the four
most recent history entries, and a spice factor of `1.4` for
(roll 6, speaking) or (roll 1, error_correction). -/
def specWeightFormula (history : List Task) (rollValue : ℤ) (t : Task) : ℚ :=
  let baseW : ℚ :=
    if t.type = "speaking" then 3
    else if t.type = "error_correction" then 2
    else if t.type = "translate_ca_en" then 2
    else if t.type = "translate_en_ca" then 2
    else 1
  let typeCounts := ((history.take 4).map Task.type).count t.type
  let spice : ℚ :=
    if (rollValue = 6 ∧ t.type = "speaking") ∨ (rollValue = 1 ∧ t.type = "error_correction")
    then 1.4 else 1
  baseW * (1 / (1 + (typeCounts : ℚ))) * spice

/-- C7: for every candidate task, roll value in `[1, 6]` and history, the
selection weight computed by the code equals
`base(type) * (1 / (1 + typeCounts)) * spice` with the claimed base table,
the type count over the four most recent history entries, and spice `1.4`
exactly for (roll 6, speaking) and (roll 1, error_correction). -/
theorem taskWeight_matches_spec_formula (history : List Task) (r : ℤ) (t : Task)
    (h1 : 1 ≤ r) (h6 : r ≤ 6) :
    taskWeight history r t = specWeightFormula history r t := by
  unfold taskWeight specWeightFormula DEFAULT_TYPE_WEIGHTS
  by_cases hs : t.type = "speaking" <;>
    by_cases he : t.type = "error_correction" <;>
      by_cases hca : t.type = "translate_ca_en" <;>
        by_cases hen : t.type = "translate_en_ca" <;>
          simp_all

theorem taskWeight_matches_spec_formula_witness :
    ((1 : ℤ) ≤ 6 ∧ (6 : ℤ) ≤ 6) ∧
    taskWeight [task1] 6 task1 = specWeightFormula [task1] 6 task1 :=
  ⟨⟨by decide, by decide⟩,
    taskWeight_matches_spec_formula [task1] 6 task1 (by decide) (by decide)⟩

/-- C8: for every non-empty pool and any history, `drawTask` returns an
element of the candidate list it samples (pool entries whose id is absent
from the ten most recent history entries, or the full pool when that set is
empty), hence always an element of the input pool; the zero-total-weight
uniform fallback and the end-of-walk fallback inside `weightedPick` also
stay inside the sampled list. -/
theorem drawTask_selects_from_pool (rv : ℚ) (rollValue : ℤ)
    (filtered history : List Task)
    (hne : filtered ≠ []) (h0 : 0 ≤ rv) (h1 : rv < 1) :
    ∃ t, drawTask rv rollValue filtered history = some t ∧
      t ∈ (let candidates :=
            filtered.filter (fun t => ¬ (history.take 10).any (fun h => h.id = t.id))
           if candidates.length ≠ 0 then candidates else filtered) ∧
      t ∈ filtered :=
  drawTask_mem rv rollValue filtered history hne h0 h1

theorem drawTask_selects_from_pool_witness :
    (([task1] : List Task) ≠ [] ∧ (0 : ℚ) ≤ 1 / 2 ∧ (1 / 2 : ℚ) < 1) ∧
    (∃ t, drawTask (1 / 2) 3 [task1] [] = some t ∧
      t ∈ (let candidates :=
            [task1].filter (fun t => ¬ (([] : List Task).take 10).any (fun h => h.id = t.id))
           if candidates.length ≠ 0 then candidates else [task1]) ∧
      t ∈ [task1]) :=
  ⟨⟨by decide, by decide, by decide⟩,
    drawTask_selects_from_pool (1 / 2) 3 [task1] [] (by decide) (by decide) (by decide)⟩

/-- C1: for every integer board size in `[40, 100]`, the jump graph returned
by `buildJumps` has no self-loops, no duplicate start squares, all starts and
ends inside `[2, boardSize - 1]`, and no end equal to `boardSize`. -/
theorem buildJumps_jump_graph_invariants (bs : ℤ) (h1 : 40 ≤ bs) (h2 : bs ≤ 100) :
    jumpInvariants bs := by
  have hn : (bs - 40).toNat ∈ List.range 61 := List.mem_range.mpr (by omega)
  have h := jumpInvariants_all _ hn
  have he : (40 : ℤ) + ((bs - 40).toNat : ℤ) = bs := by omega
  rwa [he] at h

theorem buildJumps_jump_graph_invariants_witness :
    ((40 : ℤ) ≤ 73 ∧ (73 : ℤ) ≤ 100) ∧ jumpInvariants 73 :=
  ⟨⟨by decide, by decide⟩, buildJumps_jump_graph_invariants 73 (by decide) (by decide)⟩

/-- C9: for every integer board size in `[40, 100)` the scaled jump graph
only retains pairs that preserve the canonical pair's direction (ladders stay
forward, snakes stay backward) and span at least
`minDelta = max 3 (round (6 * boardSize / 100))`; moreover every retained
entry is the scaled image of a canonical pair. -/
theorem buildJumps_scaling_preserves_direction (bs : ℤ)
    (h1 : 40 ≤ bs) (h2 : bs ≤ 100) (h3 : bs ≠ 100) : jumpScalingOK bs := by
  have hn : (bs - 40).toNat ∈ List.range 60 := List.mem_range.mpr (by omega)
  have h := jumpScalingOK_all _ hn
  have he : (40 : ℤ) + ((bs - 40).toNat : ℤ) = bs := by omega
  rwa [he] at h

theorem buildJumps_scaling_preserves_direction_witness :
    ((40 : ℤ) ≤ 40 ∧ (40 : ℤ) ≤ 100 ∧ (40 : ℤ) ≠ 100) ∧ jumpScalingOK 40 :=
  ⟨⟨by decide, by decide, by decide⟩,
    buildJumps_scaling_preserves_direction 40 (by decide) (by decide) (by decide)⟩

/-- C10: for every 32-bit unsigned seed and every position in the generated
stream, the output of `mulberry32` lies in `[0, 1)` and the derived dice
value `1 + floor(next() * 6)` is an integer in `[1, 6]`. -/
theorem mulberry_output_and_dice_range (seed n : ℕ) (hseed : seed < 4294967296) :
    0 ≤ mulberrySeq seed n ∧ mulberrySeq seed n < 1 ∧
    1 ≤ diceRoll (mulberrySeq seed n) ∧ diceRoll (mulberrySeq seed n) ≤ 6 := by
  have h0 : 0 ≤ mulberrySeq seed n := mulberryOut_nonneg _
  have h1 : mulberrySeq seed n < 1 := mulberryOut_lt_one _
  have hd := diceRoll_bounds _ h0 h1
  exact ⟨h0, h1, hd.1, hd.2⟩

theorem mulberry_output_and_dice_range_witness :
    (12345 : ℕ) < 4294967296 ∧
    (0 ≤ mulberrySeq 12345 0 ∧ mulberrySeq 12345 0 < 1 ∧
      1 ≤ diceRoll (mulberrySeq 12345 0) ∧ diceRoll (mulberrySeq 12345 0) ≤ 6) :=
  ⟨by decide, mulberry_output_and_dice_range 12345 0 (by decide)⟩

end SNL
